import Mathlib

/-!
Formal model of the SDG water-data pipeline (`data_process.py`).

The pipeline loads six long-form CSV tables, pivots each to wide form
(`load_and_pivot`), left-joins them on (State, Sector), and then derives
four columns on the merged table: an integer Sector encoding, an
SDG_6_Status compliance flag, a per-State Urban_Rural_Gap, and a quintile
Priority_Rank; finally it drops rows whose primary indicator
(Improved_Source_of_Drinking_Water) is null and writes the result.

Scalars are modelled over ℚ (the pipeline only compares, averages and
subtracts values), missing values (NaN) as `Option`/`Cell.null`, and a
Python exception escaping a function as `Except.error`.  Row order of the
pivot output (pandas sorts group keys) is not modelled, since no property
below depends on it; the row order of the merged table, which the gap
step does depend on, is taken as given input.
-/

/-- Scalar cell of a raw table: a string, a number, or missing (NaN). -/
inductive Cell where
  | str : String → Cell
  | num : ℚ → Cell
  | null : Cell
deriving DecidableEq

/-- Raw delimited table as loaded by `pd.read_csv`: named columns and rows
of cells (a short row reads as padded with nulls). -/
structure DataFrame where
  cols : List String
  rows : List (List Cell)
deriving DecidableEq

/-- One long-form observation extracted from a raw table: the tuple of key
cells (the `index_cols`), the category cell (the `pivot_col`) and the value
cell (the `value_col`). -/
structure LongRow where
  key : List Cell
  cat : Cell
  val : Cell
deriving DecidableEq

/-- List of the distinct elements of `l` in order of first occurrence. -/
def firstOccurrences {α : Type} [DecidableEq α] : List α → List α
  | [] => []
  | a :: l => a :: firstOccurrences (l.filter (fun b => decide (b ≠ a)))
termination_by l => l.length
decreasing_by
  simp only [List.length_cons]
  exact Nat.lt_succ_of_le (List.length_filter_le _ _)

theorem mem_firstOccurrences {α : Type} [DecidableEq α] (l : List α) (a : α) :
    a ∈ firstOccurrences l ↔ a ∈ l := by
  induction l using firstOccurrences.induct with
  | case1 => simp [firstOccurrences]
  | case2 x l ih =>
    simp only [firstOccurrences, List.mem_cons, ih, List.mem_filter,
      decide_eq_true_eq]
    constructor
    · rintro (rfl | ⟨h, _⟩) <;> simp [*]
    · rintro (rfl | h)
      · exact Or.inl rfl
      · by_cases hax : a = x
        · exact Or.inl hax
        · exact Or.inr ⟨h, hax⟩

theorem nodup_firstOccurrences {α : Type} [DecidableEq α] (l : List α) :
    (firstOccurrences l).Nodup := by
  induction l using firstOccurrences.induct with
  | case1 => simp [firstOccurrences]
  | case2 x l ih =>
    simp only [firstOccurrences, List.nodup_cons]
    refine ⟨fun hx => ?_, ih⟩
    have := (mem_firstOccurrences _ _).mp hx
    simp [List.mem_filter] at this

/-- Rows that survive the implicit `groupby` key filtering inside
`pivot_table`: pandas drops observations whose grouping keys (the index
columns or the category column) are missing. -/
def validRows (rs : List LongRow) : List LongRow :=
  rs.filter (fun r => decide (Cell.null ∉ r.key ∧ r.cat ≠ Cell.null))

/-- Predicate selecting the observations of one (key, category) group. -/
def matchKC (k : List Cell) (c : Cell) (r : LongRow) : Bool :=
  decide (r.key = k ∧ r.cat = c)

/-- All (key, category) groups formed by `pivot_table`'s groupby. -/
def pivotGroups (rs : List LongRow) : List (List Cell × Cell) :=
  firstOccurrences ((validRows rs).map (fun r => (r.key, r.cat)))

/-- Aggregation `first` of one (key, category) group: the first non-null
value in input order, or null if the group has none. -/
def aggFirst (rs : List LongRow) (k : List Cell) (c : Cell) : Cell :=
  ((((validRows rs).filter (matchKC k c)).map (fun r => r.val)).filter
    (fun x => decide (x ≠ Cell.null))).headD Cell.null

/-- Groups kept after `pivot_table`'s aggregation: pandas drops (with
`dropna=True`, the default) every aggregated entry that is all-NaN before
unstacking. -/
def aggedDropna (rs : List LongRow) : List (List Cell × Cell) :=
  (pivotGroups rs).filter (fun g => decide (aggFirst rs g.1 g.2 ≠ Cell.null))

/-- Key tuples that produce a row of the pivoted table. -/
def pivotKeys (rs : List LongRow) : List (List Cell) :=
  firstOccurrences ((aggedDropna rs).map (fun g => g.1))

/-- Category values that produce a column of the pivoted table. -/
def pivotCats (rs : List LongRow) : List Cell :=
  firstOccurrences ((aggedDropna rs).map (fun g => g.2))

/-- Content of the pivoted table's cell at (key tuple, category). -/
def pivotCell (rs : List LongRow) (k : List Cell) (c : Cell) : Cell :=
  if (k, c) ∈ aggedDropna rs then aggFirst rs k c else Cell.null

/-- Distinct key tuples of the long-form input, in order of first
occurrence. -/
def distinctKeys (rs : List LongRow) : List (List Cell) :=
  firstOccurrences (rs.map (fun r => r.key))

/-- Column-name normalization applied to the pivoted table: spaces and
slashes become underscores. -/
def cleanName (s : String) : String :=
  (s.replace " " "_").replace "/" "_"

/-- Rendering `str(col)` of a cell used for pivoted column names. -/
def cellText (c : Cell) : String :=
  match c with
  | Cell.str s => s
  | Cell.num q => toString q
  | Cell.null => "nan"

/-- Extraction of the long-form observations of a raw table, given the
category, value and key column names. -/
def extractLong (df : DataFrame) (pc vc : String) (ics : List String) :
    List LongRow :=
  df.rows.map (fun row =>
    ⟨ics.map (fun c => row.getD (df.cols.indexOf c) Cell.null),
      row.getD (df.cols.indexOf pc) Cell.null,
      row.getD (df.cols.indexOf vc) Cell.null⟩)

/-- Result of `df.pivot_table(index=ics, columns=pc, values=vc,
aggfunc="first").reset_index()` followed by the column-name cleanup. -/
def pivotDF (df : DataFrame) (pc vc : String) (ics : List String) :
    DataFrame :=
  let rs := extractLong df pc vc ics
  { cols := ics.map cleanName ++ (pivotCats rs).map (fun c => cleanName (cellText c)),
    rows := (pivotKeys rs).map (fun k => k ++ (pivotCats rs).map (fun c => pivotCell rs k c)) }

/-- Dropping a named column from a raw table. -/
def dropColumn (df : DataFrame) (c : String) : DataFrame :=
  { cols := df.cols.eraseIdx (df.cols.indexOf c),
    rows := df.rows.map (fun row => row.eraseIdx (df.cols.indexOf c)) }

/-- Pre-pivot special handling: the migration dataset drops its Gender
column when present. -/
def preprocess (df : DataFrame) (special_handling : Option String) : DataFrame :=
  if special_handling = some "migration" ∧ "Gender" ∈ df.cols then
    dropColumn df "Gender"
  else df

/-- Message of the schema error raised when a required column is absent. -/
def schemaMsg (c : String) (cols : List String) : String :=
  "Column '" ++ c ++ "' not found. Available columns: " ++ String.intercalate ", " cols

/-- Model of `load_and_pivot` applied to an already-loaded table.  The
column check runs before (outside) the try/except that guards the pivot:
a missing column raises a `ValueError`, modelled as `Except.error`, which
propagates to the caller; only an exception raised by the pivot itself is
caught and turned into the `None` result, modelled as `Except.ok none`
(the pivot of this model is total, so that branch is vacuous here, as it
is for every input the script feeds it). -/
def load_and_pivot (df : DataFrame) (pivot_col value_col : String)
    (index_cols : List String) (special_handling : Option String) :
    Except String (Option DataFrame) :=
  let df1 := preprocess df special_handling
  match (pivot_col :: value_col :: index_cols).find?
      (fun c => decide (c ∉ df1.cols)) with
  | some c => Except.error (schemaMsg c df1.cols)
  | none => Except.ok (some (pivotDF df1 pivot_col value_col index_cols))

/-- Row of a wide (pivoted) table presented to the joiner: its (State,
Sector) key and its remaining value columns. -/
structure WRow where
  key : String × String
  cols : List (Option ℚ)
deriving DecidableEq

/-- Wide table presented to the joiner: the number of its non-key value
columns and its rows. -/
structure WTable where
  ncols : Nat
  rows : List WRow
deriving DecidableEq

/-- Key column of a wide table. -/
def keysOf (t : WTable) : List (String × String) := t.rows.map (fun r => r.key)

/-- Rows of `t` matching key `k`. -/
def matchesOf (t : WTable) (k : String × String) : List WRow :=
  t.rows.filter (fun r => decide (r.key = k))

/-- Model of `left.merge(right, on=["State", "Sector"], how="left")`: each
left row is paired with every matching right row, and with nulls in the
right table's columns when no right row matches. -/
def leftJoin (l r : WTable) : WTable :=
  { ncols := l.ncols + r.ncols,
    rows := l.rows.flatMap (fun a =>
      match matchesOf r a.key with
      | [] => [⟨a.key, a.cols ++ List.replicate r.ncols none⟩]
      | ms => ms.map (fun b => ⟨a.key, a.cols ++ b.cols⟩)) }

/-- The fixed chain of five left joins of the script, with the water table
as the base. -/
def mergeAll (water media latrine assets migration mobile : WTable) : WTable :=
  leftJoin (leftJoin (leftJoin (leftJoin (leftJoin water media) latrine) assets) migration) mobile

/-- Row of the merged table as the derivation steps see it: its State, its
Sector after integer encoding, and its primary indicator
Improved_Source_of_Drinking_Water (other columns play no role in the
derived columns). -/
structure MRow where
  state : String
  sector : Option ℚ
  water : Option ℚ
deriving DecidableEq

/-- Default row used with `List.getD`. -/
def mdefault : MRow := ⟨"", none, none⟩

/-- Row of the merged table before Sector encoding: Sector is still its
source label. -/
structure RawMRow where
  state : String
  sectorLabel : String
  water : Option ℚ
deriving DecidableEq

/-- Default raw row used with `List.getD`. -/
def rdefault : RawMRow := ⟨"", "", none⟩

/-- Lookup of the dict `{"Rural": 0, "Urban": 1}` as `Series.map` applies
it: an absent label maps to missing (NaN), it does not raise. -/
def sectorMap (s : String) : Option ℚ :=
  if s = "Rural" then some 0 else if s = "Urban" then some 1 else none

/-- Model of `merged["Sector"] = merged["Sector"].map({"Rural": 0,
"Urban": 1})`.  The step is total: no input makes it raise, which the
`Except` result records as always returning `Except.ok`. -/
def encodeStep (t : List RawMRow) : Except String (List MRow) :=
  Except.ok (t.map (fun r => ⟨r.state, sectorMap r.sectorLabel, r.water⟩))

/-- Elementwise condition `merged["Improved_Source_of_Drinking_Water"] >=
90`: a missing value compares as false, as NaN does. -/
def waterMet (w : Option ℚ) : Bool :=
  match w with
  | some x => decide (90 ≤ x)
  | none => false

/-- Model of the `np.where(... >= 90, "Met", "Not Met")` column. -/
def statusCol (t : List MRow) : List String :=
  t.map (fun r => if waterMet r.water then "Met" else "Not Met")

/-- Mean of a list of present values, as pandas `Series.mean()` computes
it after skipping NaN: missing (NaN) when no value is present. -/
def meanOpt (xs : List ℚ) : Option ℚ :=
  if xs.isEmpty then none else some (xs.sum / (xs.length : ℚ))

/-- Rows of one State's group. -/
def groupRows (t : List MRow) (s : String) : List MRow :=
  t.filter (fun r => decide (r.state = s))

/-- Model of `calculate_disparity`: mean of the primary indicator over the
group's Sector==1 rows minus its mean over the Sector==0 rows, missing if
either side has no value. -/
def calculate_disparity (g : List MRow) : Option ℚ :=
  let urban_mean := meanOpt ((g.filter (fun r => decide (r.sector = some 1))).filterMap (fun r => r.water))
  let rural_mean := meanOpt ((g.filter (fun r => decide (r.sector = some 0))).filterMap (fun r => r.water))
  match urban_mean, rural_mean with
  | some u, some r => some (u - r)
  | _, _ => none

/-- Structural lexicographic comparison of character lists by code point;
it agrees with the string order pandas sorts group keys by. -/
def strLtB : List Char → List Char → Bool
  | [], [] => false
  | [], _ :: _ => true
  | _ :: _, [] => false
  | a :: as, b :: bs =>
    if a.toNat < b.toNat then true
    else if b.toNat < a.toNat then false
    else strLtB as bs

/-- Non-strict string comparison derived from `strLtB`. -/
def strLeB (a b : String) : Bool := !(strLtB b.data a.data)

/-- Distinct States of the merged table in the sorted order
`groupby("State")` produces its groups in. -/
def statesSorted (t : List MRow) : List String :=
  List.insertionSort (fun a b => strLeB a b = true) (firstOccurrences (t.map (fun r => r.state)))

/-- Series produced by `merged.groupby("State").apply(calculate_disparity)
.reset_index(level=0, drop=True)`: one gap value per State in sorted State
order, reindexed 0, 1, 2, ... -/
def gapSeries (t : List MRow) : List (Option ℚ) :=
  (statesSorted t).map (fun s => calculate_disparity (groupRows t s))

/-- Model of `merged["Urban_Rural_Gap"] = <gapSeries>`: column assignment
aligns the series with the merged table's default integer index, so row i
receives the series entry at position i, and missing (NaN) past the end of
the series. -/
def gapCol (t : List MRow) : List (Option ℚ) :=
  (List.range t.length).map (fun i => ((gapSeries t).get? i).join)

/-- Mean of the primary indicator over a State's rows, skipping missing
values. -/
def groupMean (t : List MRow) (s : String) : Option ℚ :=
  meanOpt ((groupRows t s).filterMap (fun r => r.water))

/-- Model of `merged.groupby("State")["Improved_Source_of_Drinking_Water"]
.transform("mean")`: each row receives its own State's mean. -/
def transformMeans (t : List MRow) : List (Option ℚ) :=
  t.map (fun r => groupMean t r.state)

/-- Present values of a series, sorted ascending. -/
def sortedVals (xs : List (Option ℚ)) : List ℚ :=
  List.insertionSort (· ≤ ·) (xs.filterMap id)

/-- Quantile of the sorted present values at probability k/5, with the
linear interpolation `np.percentile` uses: at fractional position
k*(n-1)/5 between the two neighbouring order statistics. -/
def qEdge (svs : List ℚ) (k : ℕ) : ℚ :=
  let n := svs.length
  let i := k * (n - 1) / 5
  let rem := k * (n - 1) % 5
  svs.getD i 0 + ((rem : ℚ) / 5) * (svs.getD (i + 1) 0 - svs.getD i 0)

/-- The six quintile bin edges `pd.qcut(..., q=5)` computes. -/
def qEdges (svs : List ℚ) : List ℚ :=
  (List.range 6).map (qEdge svs)

/-- Bin of a value among the five right-closed quantile intervals, the
lowest interval including its left edge: the least i with v ≤ edge i. -/
def binIdx (svs : List ℚ) (v : ℚ) : ℕ :=
  if v ≤ qEdge svs 1 then 1
  else if v ≤ qEdge svs 2 then 2
  else if v ≤ qEdge svs 3 then 3
  else if v ≤ qEdge svs 4 then 4
  else 5

/-- The five tier labels passed to `pd.qcut`. -/
def tierLabels : List String :=
  ["Tier 1 (Urgent)", "Tier 2", "Tier 3", "Tier 4", "Tier 5 (Best)"]

/-- Model of `pd.qcut(xs, q=5, labels=tierLabels)`: it raises (modelled as
`Except.error`) when the six computed bin edges are not pairwise distinct,
and otherwise labels every present value by its bin, leaving missing
values missing. -/
def qcut (xs : List (Option ℚ)) : Except String (List (Option String)) :=
  let svs := sortedVals xs
  if svs.isEmpty then Except.error "Cannot cut empty data"
  else if (qEdges svs).Nodup then
    Except.ok (xs.map (Option.map (fun v => tierLabels.getD (binIdx svs v - 1) "")))
  else Except.error "Bin edges must be unique"

/-- Model of the Priority_Rank column: qcut of the per-State mean
broadcast to every row. -/
def rankCol (t : List MRow) : Except String (List (Option String)) :=
  qcut (transformMeans t)

/-- Row of the fully derived table, before the final drop. -/
structure FRow where
  base : MRow
  status : String
  gap : Option ℚ
  rank : Option String
deriving DecidableEq

/-- Default derived row used with `List.getD`. -/
def fdefault : FRow := ⟨mdefault, "", none, none⟩

/-- The merged table after all four derivation steps, or the error the
rank step raises. -/
def deriveAll (t : List MRow) : Except String (List FRow) :=
  match rankCol t with
  | Except.error e => Except.error e
  | Except.ok ls =>
    Except.ok ((List.range t.length).map (fun i =>
      ⟨t.getD i mdefault, (statusCol t).getD i "", (gapCol t).getD i none, ls.getD i none⟩))

/-- Model of `merged.dropna(subset=["Improved_Source_of_Drinking_Water"])`:
keep exactly the rows whose primary indicator is present, in order. -/
def dropNulls (l : List FRow) : List FRow :=
  l.filter (fun f => decide (f.base.water ≠ none))

/-! ### Concrete tables used by the claim theorems -/

/-- Merged table with two States of two rows each (post-encoding), the
shape §8's gap example induces. -/
def mergedAB : List MRow :=
  [⟨"A", some 0, some 60⟩, ⟨"A", some 1, some 80⟩,
   ⟨"B", some 0, some 50⟩, ⟨"B", some 1, some 90⟩]

/-- Input table whose Sector label is outside {Rural, Urban}. -/
def rawSemiUrban : List RawMRow := [⟨"A", "Semi-Urban", some 50⟩]

/-- Loaded table that lacks the category column the water dataset pivots
on. -/
def dfMissing : DataFrame := ⟨["State", "Sector", "Value"], []⟩

/-- Single-row merged table whose indicator meets the 90 threshold. -/
def tMet : List MRow := [⟨"A", some 1, some 95⟩]

/-- C1: the gap step does not broadcast each State's urban−rural gap to the
State's rows.  `calculate_disparity` itself gives 20 for State A and 40 for
State B, but the assignment aligns the per-State series positionally with
the row index, so row 1 (a State A row) receives 40 and both State B rows
receive null; the per-State broadcast the claim describes would give
[20, 20, 40, 40]. -/
theorem c1_gap_positional_misalignment :
    gapCol mergedAB = [some 20, some 40, none, none]
    ∧ calculate_disparity (groupRows mergedAB "A") = some 20
    ∧ calculate_disparity (groupRows mergedAB "B") = some 40
    ∧ mergedAB.map (fun r => calculate_disparity (groupRows mergedAB r.state))
        = [some 20, some 20, some 40, some 40]
    ∧ gapCol mergedAB
        ≠ mergedAB.map (fun r => calculate_disparity (groupRows mergedAB r.state)) := by
  have h1 : gapCol mergedAB = [some 20, some 40, none, none] := by
    norm_num +decide [gapCol, gapSeries, statesSorted, firstOccurrences, groupRows,
      calculate_disparity, meanOpt, mergedAB, List.insertionSort, List.orderedInsert,
      strLeB, strLtB, List.filterMap_cons, List.range_succ]
  have h2 : mergedAB.map (fun r => calculate_disparity (groupRows mergedAB r.state))
      = [some 20, some 20, some 40, some 40] := by
    norm_num +decide [mergedAB, groupRows, calculate_disparity, meanOpt, List.filterMap_cons]
  refine ⟨h1, ?_, ?_, h2, ?_⟩
  · norm_num +decide [groupRows, calculate_disparity, meanOpt, mergedAB, List.filterMap_cons]
  · norm_num +decide [groupRows, calculate_disparity, meanOpt, mergedAB, List.filterMap_cons]
  · rw [h1, h2]
    simp

/-- C3 counterexample: a Sector label outside {Rural, Urban} does not make
the encoding step raise a ValueError; the step returns normally and maps
the label to null. -/
theorem c3_counterexample :
    encodeStep rawSemiUrban = Except.ok [⟨"A", none, some 50⟩]
    ∧ ∀ e, encodeStep rawSemiUrban ≠ Except.error e := by
  constructor
  · norm_num +decide [encodeStep, rawSemiUrban, sectorMap]
  · intro e h
    simp [encodeStep] at h

/-- C3 (amended): the encoding step never raises; it maps "Rural" to 0,
"Urban" to 1, and every other Sector label to null. -/
theorem c3_encode_amended (t : List RawMRow) (i : ℕ) (hi : i < t.length) :
    ∃ out, encodeStep t = Except.ok out ∧ out.length = t.length
      ∧ ((t.getD i rdefault).sectorLabel = "Rural" → (out.getD i mdefault).sector = some 0)
      ∧ ((t.getD i rdefault).sectorLabel = "Urban" → (out.getD i mdefault).sector = some 1)
      ∧ ((t.getD i rdefault).sectorLabel ≠ "Rural" → (t.getD i rdefault).sectorLabel ≠ "Urban" →
          (out.getD i mdefault).sector = none) := by
  have hmap : ((t.map (fun r => (⟨r.state, sectorMap r.sectorLabel, r.water⟩ : MRow))).getD i mdefault).sector
      = sectorMap ((t.getD i rdefault).sectorLabel) := by
    rw [List.getD_eq_getElem _ _ (by simpa using hi), List.getD_eq_getElem _ _ hi]
    simp
  refine ⟨_, rfl, by simp, ?_, ?_, ?_⟩
  · intro h
    rw [hmap, h]
    decide
  · intro h
    rw [hmap, h]
    decide
  · intro h1 h2
    rw [hmap]
    simp only [sectorMap]
    rw [if_neg h1, if_neg h2]

/-- C3 witness: the amended encoding property evaluated on the
Semi-Urban row. -/
theorem c3_encode_amended_witness :
    0 < rawSemiUrban.length
    ∧ ∃ out, encodeStep rawSemiUrban = Except.ok out ∧ out.length = rawSemiUrban.length
      ∧ ((rawSemiUrban.getD 0 rdefault).sectorLabel = "Rural" → (out.getD 0 mdefault).sector = some 0)
      ∧ ((rawSemiUrban.getD 0 rdefault).sectorLabel = "Urban" → (out.getD 0 mdefault).sector = some 1)
      ∧ ((rawSemiUrban.getD 0 rdefault).sectorLabel ≠ "Rural" →
          (rawSemiUrban.getD 0 rdefault).sectorLabel ≠ "Urban" →
          (out.getD 0 mdefault).sector = none) :=
  ⟨by decide, c3_encode_amended rawSemiUrban 0 (by decide)⟩

/-- C6: after the compliance-flag step a row's status is "Met" exactly when
its primary indicator is present and at least 90, and "Not Met" exactly
otherwise. -/
theorem c6_compliance_flag (t : List MRow) (i : ℕ) (hi : i < t.length) :
    ((statusCol t).getD i "" = "Met"
        ↔ ∃ x, (t.getD i mdefault).water = some x ∧ 90 ≤ x)
    ∧ ((statusCol t).getD i "" = "Not Met"
        ↔ ¬ ∃ x, (t.getD i mdefault).water = some x ∧ 90 ≤ x) := by
  have h1 : (statusCol t).getD i ""
      = (if waterMet (t.getD i mdefault).water then "Met" else "Not Met") := by
    rw [List.getD_eq_getElem _ _ (by simpa [statusCol] using hi),
      List.getD_eq_getElem _ _ hi]
    simp [statusCol]
  rw [h1]
  rcases hw : (t.getD i mdefault).water with _ | x
  · simp [waterMet]
  · by_cases h90 : (90 : ℚ) ≤ x
    · simp [waterMet, h90]
    · simp [waterMet, h90]

/-- C6 witness: the compliance property evaluated on a row with
indicator 95. -/
theorem c6_compliance_flag_witness :
    0 < tMet.length
    ∧ (((statusCol tMet).getD 0 "" = "Met"
          ↔ ∃ x, (tMet.getD 0 mdefault).water = some x ∧ 90 ≤ x)
        ∧ ((statusCol tMet).getD 0 "" = "Not Met"
          ↔ ¬ ∃ x, (tMet.getD 0 mdefault).water = some x ∧ 90 ≤ x)) :=
  ⟨by decide, c6_compliance_flag tMet 0 (by decide)⟩

/-- C2 counterexample: a missing column makes `load_and_pivot` raise (the
error propagates out of the function): the result is the schema error, not
the caught-and-null result the claim describes. -/
theorem c2_counterexample :
    load_and_pivot dfMissing "Sub Indicator" "Value" ["State", "Sector"] none
      = Except.error "Column 'Sub Indicator' not found. Available columns: State, Sector, Value"
    ∧ load_and_pivot dfMissing "Sub Indicator" "Value" ["State", "Sector"] none
      ≠ Except.ok none := by
  have h : load_and_pivot dfMissing "Sub Indicator" "Value" ["State", "Sector"] none
      = Except.error (schemaMsg "Sub Indicator" dfMissing.cols) := by
    norm_num +decide [load_and_pivot, preprocess, dfMissing, List.find?]
  have hs : schemaMsg "Sub Indicator" dfMissing.cols
      = "Column 'Sub Indicator' not found. Available columns: State, Sector, Value" := by
    decide
  constructor
  · rw [h, hs]
  · rw [h]
    simp

/-- C2 (amended): when a required column is absent, `load_and_pivot` fails
with an error naming the first missing column and listing the available
columns, and this error propagates (it is not caught into the null
result); only an error raised by the pivot itself is caught locally. -/
theorem c2_schema_error (df : DataFrame) (pc vc : String) (ics : List String)
    (sp : Option String) (c : String)
    (hfind : (pc :: vc :: ics).find? (fun x => decide (x ∉ (preprocess df sp).cols)) = some c) :
    load_and_pivot df pc vc ics sp = Except.error (schemaMsg c (preprocess df sp).cols)
    ∧ ∀ o, load_and_pivot df pc vc ics sp ≠ Except.ok o := by
  have h : load_and_pivot df pc vc ics sp = Except.error (schemaMsg c (preprocess df sp).cols) := by
    simp only [load_and_pivot]
    rw [hfind]
  exact ⟨h, fun o => by simp [h]⟩

/-- C2 witness: the schema-error property evaluated on a table lacking the
category column. -/
theorem c2_schema_error_witness :
    ("Sub Indicator" :: "Value" :: ["State", "Sector"]).find?
        (fun x => decide (x ∉ (preprocess dfMissing none).cols)) = some "Sub Indicator"
    ∧ (load_and_pivot dfMissing "Sub Indicator" "Value" ["State", "Sector"] none
        = Except.error (schemaMsg "Sub Indicator" (preprocess dfMissing none).cols)
      ∧ ∀ o, load_and_pivot dfMissing "Sub Indicator" "Value" ["State", "Sector"] none
        ≠ Except.ok o) :=
  ⟨by decide, c2_schema_error dfMissing "Sub Indicator" "Value" ["State", "Sector"] none
    "Sub Indicator" (by decide)⟩

/-- Merged table with five States whose means are 10, 20, 30, 40, 50, on
which the quintile cut succeeds. -/
def mergedQ : List MRow :=
  [⟨"A", some 0, some 10⟩, ⟨"A", some 1, some 10⟩,
   ⟨"B", some 0, some 20⟩, ⟨"B", some 1, some 20⟩,
   ⟨"C", some 0, some 30⟩, ⟨"D", some 1, some 40⟩, ⟨"E", some 0, some 50⟩]

/-- The derived table of `mergedQ`. -/
def frQ : List FRow :=
  [⟨⟨"A", some 0, some 10⟩, "Not Met", some 0, some "Tier 1 (Urgent)"⟩,
   ⟨⟨"A", some 1, some 10⟩, "Not Met", some 0, some "Tier 1 (Urgent)"⟩,
   ⟨⟨"B", some 0, some 20⟩, "Not Met", none, some "Tier 2"⟩,
   ⟨⟨"B", some 1, some 20⟩, "Not Met", none, some "Tier 2"⟩,
   ⟨⟨"C", some 0, some 30⟩, "Not Met", none, some "Tier 4"⟩,
   ⟨⟨"D", some 1, some 40⟩, "Not Met", none, some "Tier 5 (Best)"⟩,
   ⟨⟨"E", some 0, some 50⟩, "Not Met", none, some "Tier 5 (Best)"⟩]

/-- `mergedQ` extended with a row whose primary indicator is missing. -/
def mergedQN : List MRow := mergedQ ++ [⟨"F", some 0, none⟩]

/-- C8: the final drop keeps exactly the derived rows whose primary
indicator is present: every kept row is non-null there, every non-null row
is kept, and the kept rows form a sublist (no reordering or duplication)
whose length is the total minus the null rows. -/
theorem c8_final_drop (t : List MRow) (fr : List FRow)
    (h : deriveAll t = Except.ok fr) :
    (∀ f ∈ dropNulls fr, f.base.water ≠ none)
    ∧ (∀ f ∈ fr, f.base.water ≠ none → f ∈ dropNulls fr)
    ∧ (dropNulls fr).Sublist fr
    ∧ (dropNulls fr).length
        + (fr.filter (fun f => decide (f.base.water = none))).length = fr.length := by
  refine ⟨?_, ?_, List.filter_sublist fr, ?_⟩
  · intro f hf
    have := List.of_mem_filter hf
    simpa using this
  · intro f hf hw
    exact List.mem_filter_of_mem hf (by simpa using hw)
  · clear h
    induction fr with
    | nil => rfl
    | cons a l ih =>
      by_cases hw : a.base.water = none <;>
        simp only [dropNulls, List.filter_cons, hw, decide_not] at * <;>
        simp [hw] <;> omega

/-- C8 witness: the drop property evaluated on the derived table of
`mergedQ`. -/
theorem c8_final_drop_witness :
    deriveAll mergedQ = Except.ok frQ
    ∧ ((∀ f ∈ dropNulls frQ, f.base.water ≠ none)
      ∧ (∀ f ∈ frQ, f.base.water ≠ none → f ∈ dropNulls frQ)
      ∧ (dropNulls frQ).Sublist frQ
      ∧ (dropNulls frQ).length
          + (frQ.filter (fun f => decide (f.base.water = none))).length = frQ.length) := by
  have h : deriveAll mergedQ = Except.ok frQ := by
    norm_num +decide [deriveAll, rankCol, qcut, transformMeans, groupMean, groupRows,
      meanOpt, sortedVals, List.insertionSort, List.orderedInsert, qEdges, qEdge, binIdx,
      tierLabels, statusCol, waterMet, gapCol, gapSeries, statesSorted, firstOccurrences,
      calculate_disparity, strLeB, strLtB, mergedQ, frQ, mdefault,
      List.filterMap_cons, List.range_succ]
  exact ⟨h, c8_final_drop mergedQ frQ h⟩

/-- C10: a row with missing primary indicator does not make the
compliance-flag step fail; it is flagged "Not Met", it is still present
(with its base data) in the fully derived table, and it is removed by the
final drop step. -/
theorem c10_null_row_not_met (t : List MRow) (i : ℕ) (hi : i < t.length)
    (hw : (t.getD i mdefault).water = none) :
    (statusCol t).getD i "" = "Not Met"
    ∧ ∀ fr, deriveAll t = Except.ok fr →
        fr.length = t.length
        ∧ (fr.getD i fdefault).base = t.getD i mdefault
        ∧ (fr.getD i fdefault) ∉ dropNulls fr := by
  constructor
  · rw [List.getD_eq_getElem _ _ (by simpa [statusCol] using hi)]
    simp only [statusCol, List.getElem_map]
    rw [show t[i] = t.getD i mdefault from (List.getD_eq_getElem _ _ hi).symm, hw]
    simp [waterMet]
  · intro fr hfr
    obtain ⟨ls, hfr2⟩ : ∃ ls : List (Option String), fr = (List.range t.length).map (fun j =>
        (⟨t.getD j mdefault, (statusCol t).getD j "", (gapCol t).getD j none,
          ls.getD j none⟩ : FRow)) := by
      rcases hr : rankCol t with e | ls <;> simp only [deriveAll, hr] at hfr
      · exact absurd hfr (by simp)
      · injection hfr with h2
        exact ⟨ls, h2.symm⟩
    have hlen : fr.length = t.length := by
      rw [hfr2]
      simp
    have hbase : (fr.getD i fdefault).base = t.getD i mdefault := by
      rw [hfr2, List.getD_eq_getElem _ _ (by simpa using hi)]
      simp
    refine ⟨hlen, hbase, fun hmem => ?_⟩
    have hne := List.of_mem_filter hmem
    rw [hbase, hw] at hne
    simp at hne

/-- C10 witness: the null-row property evaluated at row 7 of `mergedQN`,
whose indicator is missing, together with the fact that the derivation of
`mergedQN` does succeed. -/
theorem c10_null_row_not_met_witness :
    7 < mergedQN.length
    ∧ (mergedQN.getD 7 mdefault).water = none
    ∧ (∃ fr, deriveAll mergedQN = Except.ok fr)
    ∧ ((statusCol mergedQN).getD 7 "" = "Not Met"
      ∧ ∀ fr, deriveAll mergedQN = Except.ok fr →
          fr.length = mergedQN.length
          ∧ (fr.getD 7 fdefault).base = mergedQN.getD 7 mdefault
          ∧ (fr.getD 7 fdefault) ∉ dropNulls fr) := by
  refine ⟨by decide, by decide, ⟨frQ ++ [⟨⟨"F", some 0, none⟩, "Not Met", none, none⟩], ?_⟩,
    c10_null_row_not_met mergedQN 7 (by decide) (by decide)⟩
  norm_num +decide [deriveAll, rankCol, qcut, transformMeans, groupMean, groupRows,
    meanOpt, sortedVals, List.insertionSort, List.orderedInsert, qEdges, qEdge, binIdx,
    tierLabels, statusCol, waterMet, gapCol, gapSeries, statesSorted, firstOccurrences,
    calculate_disparity, strLeB, strLtB, mergedQ, mergedQN, frQ, mdefault,
    List.filterMap_cons, List.range_succ]

/-- Output of one left-join for one left row: the matching right rows, or
one null-padded row when none match.  (`leftJoin` maps this over the left
table.) -/
theorem leftJoin_rows (l r : WTable) :
    (leftJoin l r).rows = l.rows.flatMap (fun a =>
      match matchesOf r a.key with
      | [] => [⟨a.key, a.cols ++ List.replicate r.ncols none⟩]
      | ms => ms.map (fun b => ⟨a.key, a.cols ++ b.cols⟩)) := rfl

/-- List form of the key-uniqueness argument: rows with pairwise distinct
keys contain at most one row with any given key. -/
theorem filter_eq_key_length_le (rows : List WRow) (k : String × String)
    (hnd : (rows.map (fun r => r.key)).Nodup) :
    (rows.filter (fun x => decide (x.key = k))).length ≤ 1 := by
  induction rows with
  | nil => simp
  | cons a l ih =>
    rw [List.map_cons, List.nodup_cons] at hnd
    by_cases hk : a.key = k
    · have hnil : l.filter (fun x => decide (x.key = k)) = [] := by
        rw [List.filter_eq_nil_iff]
        intro x hx
        simp only [decide_eq_true_eq]
        intro hxk
        exact hnd.1 (List.mem_map.mpr ⟨x, hx, hxk.trans hk.symm⟩)
      simp [List.filter_cons, hk, hnil]
    · rw [List.filter_cons, if_neg (by simp [hk])]
      exact ih hnd.2

/-- A wide table with distinct keys matches any key at most once. -/
theorem matchesOf_length_le (r : WTable) (hnd : (keysOf r).Nodup)
    (k : String × String) : (matchesOf r k).length ≤ 1 :=
  filter_eq_key_length_le r.rows k hnd

/-- When the right table's keys are distinct, a left join neither adds nor
removes rows. -/
theorem leftJoin_length (l r : WTable) (hnd : (keysOf r).Nodup) :
    (leftJoin l r).rows.length = l.rows.length := by
  rw [leftJoin_rows]
  induction l.rows with
  | nil => rfl
  | cons a t ih =>
    rw [List.flatMap_cons, List.length_append, ih, List.length_cons]
    rcases hm : matchesOf r a.key with _ | ⟨b, bs⟩
    · simp
      omega
    · have hle := matchesOf_length_le r hnd a.key
      rw [hm] at hle
      have hbs : bs = [] := by
        cases bs with
        | nil => rfl
        | cons c cs => simp at hle
      subst hbs
      simp
      omega

/-- C5: every join of the fixed six-table chain preserves the base (water)
table's row count when the right tables are wide (distinct (State, Sector)
keys), and a left row with no match in a right table yields its row padded
with nulls in that table's columns. -/
theorem c5_join_preserves_rows (water media latrine assets migration mobile : WTable)
    (h2 : (keysOf media).Nodup) (h3 : (keysOf latrine).Nodup)
    (h4 : (keysOf assets).Nodup) (h5 : (keysOf migration).Nodup)
    (h6 : (keysOf mobile).Nodup) :
    (mergeAll water media latrine assets migration mobile).rows.length = water.rows.length
    ∧ ∀ (x y : WTable) (a : WRow), a ∈ x.rows → matchesOf y a.key = [] →
        (⟨a.key, a.cols ++ List.replicate y.ncols none⟩ : WRow) ∈ (leftJoin x y).rows := by
  constructor
  · unfold mergeAll
    rw [leftJoin_length _ _ h6, leftJoin_length _ _ h5, leftJoin_length _ _ h4,
      leftJoin_length _ _ h3, leftJoin_length _ _ h2]
  · intro x y a ha hm
    rw [leftJoin_rows]
    refine List.mem_flatMap.mpr ⟨a, ha, ?_⟩
    rw [hm]
    simp

/-- Wide water table of the join witness. -/
def wWater : WTable := ⟨1, [⟨("A", "Rural"), [some 55]⟩, ⟨("A", "Urban"), [some 80]⟩]⟩

/-- Wide media table of the join witness. -/
def wMedia : WTable := ⟨1, [⟨("A", "Rural"), [some 30]⟩]⟩

/-- Wide latrine table of the join witness. -/
def wLatrine : WTable := ⟨1, [⟨("A", "Urban"), [some 70]⟩]⟩

/-- Wide assets table of the join witness. -/
def wAssets : WTable := ⟨1, []⟩

/-- Wide migration table of the join witness. -/
def wMigration : WTable := ⟨2, [⟨("A", "Rural"), [some 1, some 2]⟩]⟩

/-- Wide mobile table of the join witness. -/
def wMobile : WTable := ⟨1, [⟨("B", "Rural"), [some 9]⟩]⟩

/-- C5 witness: the join chain on six concrete wide tables, with matches
present in some tables and absent in others. -/
theorem c5_join_preserves_rows_witness :
    ((keysOf wMedia).Nodup ∧ (keysOf wLatrine).Nodup ∧ (keysOf wAssets).Nodup
      ∧ (keysOf wMigration).Nodup ∧ (keysOf wMobile).Nodup)
    ∧ ((mergeAll wWater wMedia wLatrine wAssets wMigration wMobile).rows.length
        = wWater.rows.length
      ∧ ∀ (x y : WTable) (a : WRow), a ∈ x.rows → matchesOf y a.key = [] →
          (⟨a.key, a.cols ++ List.replicate y.ncols none⟩ : WRow) ∈ (leftJoin x y).rows) :=
  ⟨⟨by decide, by decide, by decide, by decide, by decide⟩,
    c5_join_preserves_rows wWater wMedia wLatrine wAssets wMigration wMobile
      (by decide) (by decide) (by decide) (by decide) (by decide)⟩

/-- Key filtering is the identity on observations whose keys and category
are present. -/
theorem validRows_eq_self (rs : List LongRow)
    (hk : ∀ r ∈ rs, Cell.null ∉ r.key ∧ r.cat ≠ Cell.null) : validRows rs = rs :=
  List.filter_eq_self.mpr (fun r hr => by simpa using hk r hr)

/-- The `first` aggregation of a non-empty stream of non-null candidates is
itself non-null. -/
theorem headD_filter_ne_null (l : List Cell)
    (hne : l.filter (fun x => decide (x ≠ Cell.null)) ≠ []) :
    (l.filter (fun x => decide (x ≠ Cell.null))).headD Cell.null ≠ Cell.null := by
  rcases hl : l.filter (fun x => decide (x ≠ Cell.null)) with _ | ⟨a, as⟩
  · exact absurd hl hne
  · have ha : a ∈ l.filter (fun x => decide (x ≠ Cell.null)) := by
      rw [hl]
      exact List.mem_cons_self _ _
    have := List.of_mem_filter ha
    simpa using this

/-- Long-form input with a single observation whose value is null. -/
def rsNull : List LongRow :=
  [⟨[Cell.str "A", Cell.str "Rural"], Cell.str "c", Cell.null⟩]

/-- Long-form input with one all-null key and one keyed value. -/
def rsMixed : List LongRow :=
  [⟨[Cell.str "A"], Cell.str "c", Cell.null⟩, ⟨[Cell.str "B"], Cell.str "c", Cell.num 5⟩]

/-- Long-form input with a duplicate (key, category) pair. -/
def rsDup : List LongRow :=
  [⟨[Cell.str "A"], Cell.str "c", Cell.num 1⟩, ⟨[Cell.str "A"], Cell.str "c", Cell.num 2⟩,
   ⟨[Cell.str "B"], Cell.str "c", Cell.num 3⟩]

/-- C4 counterexample: an input whose only observation for a key tuple
carries a null value produces no pivot row for that key, so the output has
fewer rows than the input has distinct key tuples. -/
theorem c4_counterexample :
    (pivotKeys rsNull).length = 0 ∧ (distinctKeys rsNull).length = 1
    ∧ pivotKeys rsNull = [] := by
  norm_num +decide [pivotKeys, distinctKeys, aggedDropna, pivotGroups, validRows,
    aggFirst, matchKC, firstOccurrences, rsNull]

/-- C4 (amended): for a null-free input table, including inputs with
duplicate (key, category) rows, the pivot has exactly one row per distinct
key tuple of the input, and each present cell holds the first value
encountered in input order for its (key tuple, category) pair. -/
theorem c4_pivot_first_amended (rs : List LongRow)
    (hval : ∀ r ∈ rs, r.val ≠ Cell.null)
    (hkey : ∀ r ∈ rs, Cell.null ∉ r.key ∧ r.cat ≠ Cell.null) :
    (∀ k, k ∈ pivotKeys rs ↔ k ∈ distinctKeys rs)
    ∧ (pivotKeys rs).length = (distinctKeys rs).length
    ∧ (pivotKeys rs).Nodup
    ∧ ∀ k c r0 rest, rs.filter (matchKC k c) = r0 :: rest → pivotCell rs k c = r0.val := by
  have hvr : validRows rs = rs := validRows_eq_self rs hkey
  have hagg : ∀ g ∈ pivotGroups rs, aggFirst rs g.1 g.2 ≠ Cell.null := by
    intro g hg
    rw [pivotGroups, hvr, mem_firstOccurrences] at hg
    obtain ⟨r, hr, hrg⟩ := List.mem_map.mp hg
    subst hrg
    rw [aggFirst, hvr]
    have hmem : r.val ∈ (rs.filter (matchKC r.key r.cat)).map (fun r => r.val) :=
      List.mem_map_of_mem _ (List.mem_filter_of_mem hr (by simp [matchKC]))
    have hmem2 : r.val ∈ ((rs.filter (matchKC r.key r.cat)).map (fun r => r.val)).filter
        (fun x => decide (x ≠ Cell.null)) :=
      List.mem_filter_of_mem hmem (by simpa using hval r hr)
    exact headD_filter_ne_null _ (List.ne_nil_of_mem hmem2)
  have hAD : aggedDropna rs = pivotGroups rs :=
    List.filter_eq_self.mpr (fun g hg => by simpa using hagg g hg)
  have hmem : ∀ k, k ∈ pivotKeys rs ↔ k ∈ distinctKeys rs := by
    intro k
    rw [pivotKeys, distinctKeys, mem_firstOccurrences, mem_firstOccurrences, hAD,
      pivotGroups, hvr]
    constructor
    · intro hk
      obtain ⟨g, hg, hgk⟩ := List.mem_map.mp hk
      rw [mem_firstOccurrences] at hg
      obtain ⟨r, hr, hrg⟩ := List.mem_map.mp hg
      refine List.mem_map.mpr ⟨r, hr, ?_⟩
      rw [← hgk, ← hrg]
    · intro hk
      obtain ⟨r, hr, hrk⟩ := List.mem_map.mp hk
      exact List.mem_map.mpr ⟨(r.key, r.cat),
        (mem_firstOccurrences _ _).mpr (List.mem_map.mpr ⟨r, hr, rfl⟩), hrk⟩
  refine ⟨hmem, ?_, nodup_firstOccurrences _, ?_⟩
  · exact ((List.perm_ext_iff_of_nodup (nodup_firstOccurrences _)
      (nodup_firstOccurrences _)).mpr hmem).length_eq
  · intro k c r0 rest hflt
    have hr0 : r0 ∈ rs.filter (matchKC k c) := by
      rw [hflt]
      exact List.mem_cons_self _ _
    have hr0rs : r0 ∈ rs := List.mem_of_mem_filter hr0
    have hkc : r0.key = k ∧ r0.cat = c := by simpa [matchKC] using List.of_mem_filter hr0
    have hin : (k, c) ∈ aggedDropna rs := by
      rw [hAD, pivotGroups, hvr, mem_firstOccurrences]
      exact List.mem_map.mpr ⟨r0, hr0rs, by rw [hkc.1, hkc.2]⟩
    rw [pivotCell, if_pos hin, aggFirst, hvr, hflt]
    have hself : ((r0 :: rest).map (fun r => r.val)).filter (fun x => decide (x ≠ Cell.null))
        = (r0 :: rest).map (fun r => r.val) := by
      rw [List.filter_eq_self]
      intro x hx
      obtain ⟨r, hrr, hrx⟩ := List.mem_map.mp hx
      rw [← hflt] at hrr
      rw [← hrx]
      simpa using hval r (List.mem_of_mem_filter hrr)
    rw [hself, List.map_cons, List.headD_cons]

/-- C4 witness: the amended pivot property evaluated on a null-free input
with a duplicate (key, category) pair. -/
theorem c4_pivot_first_amended_witness :
    (∀ r ∈ rsDup, r.val ≠ Cell.null)
    ∧ (∀ r ∈ rsDup, Cell.null ∉ r.key ∧ r.cat ≠ Cell.null)
    ∧ ((∀ k, k ∈ pivotKeys rsDup ↔ k ∈ distinctKeys rsDup)
      ∧ (pivotKeys rsDup).length = (distinctKeys rsDup).length
      ∧ (pivotKeys rsDup).Nodup
      ∧ ∀ k c r0 rest, rsDup.filter (matchKC k c) = r0 :: rest →
          pivotCell rsDup k c = r0.val) :=
  ⟨by decide, by decide, c4_pivot_first_amended rsDup (by decide) (by decide)⟩

/-- C9: the pivot drops null values before aggregating — a (key, category)
pair whose first value is null takes the first non-null value instead; a
key tuple all of whose values are null yields no pivot row; consequently
the pivot can have fewer rows than the input has distinct key tuples, as
`rsMixed` shows. -/
theorem c9_pivot_null_handling :
    (∀ (rs : List LongRow) (k : List Cell) (c : Cell) (r0 : LongRow)
        (rest : List LongRow) (v : Cell),
      (∀ r ∈ rs, Cell.null ∉ r.key ∧ r.cat ≠ Cell.null) →
      rs.filter (matchKC k c) = r0 :: rest →
      r0.val = Cell.null →
      ((rest.map (fun r => r.val)).filter (fun x => decide (x ≠ Cell.null))).headD Cell.null = v →
      v ≠ Cell.null →
      pivotCell rs k c = v)
    ∧ (∀ (rs : List LongRow) (k : List Cell),
        (∃ r ∈ rs, r.key = k) →
        (∀ r ∈ rs, r.key = k → r.val = Cell.null) →
        k ∉ pivotKeys rs)
    ∧ (pivotKeys rsMixed).length < (distinctKeys rsMixed).length := by
  refine ⟨?_, ?_, by
    norm_num +decide [pivotKeys, distinctKeys, aggedDropna, pivotGroups, validRows,
      aggFirst, matchKC, firstOccurrences, rsMixed]⟩
  · intro rs k c r0 rest v hkey hflt hr0 hv hvne
    have hvr : validRows rs = rs := validRows_eq_self rs hkey
    have hr0' : r0 ∈ rs.filter (matchKC k c) := by
      rw [hflt]
      exact List.mem_cons_self _ _
    have hr0rs : r0 ∈ rs := List.mem_of_mem_filter hr0'
    have hkc : r0.key = k ∧ r0.cat = c := by simpa [matchKC] using List.of_mem_filter hr0'
    have hagg : aggFirst rs k c = v := by
      rw [aggFirst, hvr, hflt, List.map_cons, hr0, List.filter_cons]
      simpa using hv
    have hin : (k, c) ∈ aggedDropna rs := by
      have hgrp : (k, c) ∈ pivotGroups rs := by
        rw [pivotGroups, hvr, mem_firstOccurrences]
        exact List.mem_map.mpr ⟨r0, hr0rs, by rw [hkc.1, hkc.2]⟩
      rw [aggedDropna]
      exact List.mem_filter_of_mem hgrp (by simpa [hagg] using hvne)
    rw [pivotCell, if_pos hin, hagg]
  · intro rs k hex hall hk
    rw [pivotKeys, mem_firstOccurrences] at hk
    obtain ⟨g, hg, hgk⟩ := List.mem_map.mp hk
    have hne : aggFirst rs g.1 g.2 ≠ Cell.null := by
      rw [aggedDropna] at hg
      simpa using List.of_mem_filter hg
    refine hne ?_
    rw [aggFirst]
    have hnil : (((validRows rs).filter (matchKC g.1 g.2)).map (fun r => r.val)).filter
        (fun x => decide (x ≠ Cell.null)) = [] := by
      rw [List.filter_eq_nil_iff]
      intro x hx
      obtain ⟨r, hr, hrx⟩ := List.mem_map.mp hx
      have hrv : r ∈ validRows rs := List.mem_of_mem_filter hr
      have hrrs : r ∈ rs := List.mem_of_mem_filter hrv
      have hkc2 : r.key = g.1 ∧ r.cat = g.2 := by simpa [matchKC] using List.of_mem_filter hr
      have hrk : r.key = g.1 := hkc2.1
      have hrnull : r.val = Cell.null := hall r hrrs (by rw [hrk, hgk])
      rw [← hrx]
      simp [hrnull]
    rw [hnil]
    rfl

/-- Monotonicity of indexing into a sorted list. -/
theorem sorted_getD_mono (l : List ℚ) (hs : List.Sorted (· ≤ ·) l) {i j : ℕ}
    (hij : i ≤ j) (hj : j < l.length) : l.getD i 0 ≤ l.getD j 0 := by
  have hi : i < l.length := lt_of_le_of_lt hij hj
  rw [List.getD_eq_getElem _ _ hi, List.getD_eq_getElem _ _ hj]
  rcases Nat.lt_or_ge i j with h | h
  · have := List.Sorted.rel_get_of_lt hs (a := ⟨i, hi⟩) (b := ⟨j, hj⟩) (Fin.mk_lt_mk.mpr h)
    simpa using this
  · have : i = j := le_antisymm hij h
    subst this
    exact le_refl _

/-- The head of a sorted list bounds its members from below. -/
theorem sorted_head_le (l : List ℚ) (hs : List.Sorted (· ≤ ·) l) {x : ℚ}
    (hx : x ∈ l) : l.getD 0 0 ≤ x := by
  obtain ⟨i, hi, rfl⟩ := List.mem_iff_getElem.mp hx
  rw [← List.getD_eq_getElem l 0 hi]
  exact sorted_getD_mono l hs (Nat.zero_le i) hi

/-- The last entry of a sorted list bounds its members from above. -/
theorem sorted_le_last (l : List ℚ) (hs : List.Sorted (· ≤ ·) l) {x : ℚ}
    (hx : x ∈ l) : x ≤ l.getD (l.length - 1) 0 := by
  obtain ⟨i, hi, rfl⟩ := List.mem_iff_getElem.mp hx
  rw [← List.getD_eq_getElem l 0 hi]
  exact sorted_getD_mono l hs (by omega) (by omega)

/-- In-bounds `getD` entries are members. -/
theorem getD_mem (l : List ℚ) (i : ℕ) (hi : i < l.length) : l.getD i 0 ∈ l := by
  rw [List.getD_eq_getElem _ _ hi]
  exact List.getElem_mem hi

/-- A linear interpolation between two neighbouring order statistics of a
sorted list stays between the list's extremes. -/
theorem interp_bounds (l : List ℚ) (hs : List.Sorted (· ≤ ·) l) (i rem : ℕ)
    (hi : i < l.length) (hrem : rem < 5) (hedge : i + 1 < l.length ∨ rem = 0) :
    l.getD 0 0 ≤ l.getD i 0 + ((rem : ℚ) / 5) * (l.getD (i + 1) 0 - l.getD i 0)
    ∧ l.getD i 0 + ((rem : ℚ) / 5) * (l.getD (i + 1) 0 - l.getD i 0)
        ≤ l.getD (l.length - 1) 0 := by
  rcases hedge with h2 | h0
  · have hab : l.getD i 0 ≤ l.getD (i + 1) 0 := sorted_getD_mono l hs (Nat.le_succ i) h2
    have hf0 : (0 : ℚ) ≤ (rem : ℚ) / 5 := by positivity
    have hf1 : ((rem : ℚ)) / 5 ≤ 1 := by
      rw [div_le_one (by norm_num)]
      exact_mod_cast hrem.le
    constructor
    · have hstep : l.getD i 0 ≤ l.getD i 0 + ((rem : ℚ) / 5) * (l.getD (i + 1) 0 - l.getD i 0) := by
        nlinarith
      exact le_trans (sorted_getD_mono l hs (Nat.zero_le i) hi) hstep
    · have hstep : l.getD i 0 + ((rem : ℚ) / 5) * (l.getD (i + 1) 0 - l.getD i 0)
          ≤ l.getD (i + 1) 0 := by
        nlinarith
      exact le_trans hstep (sorted_getD_mono l hs (by omega) (by omega))
  · subst h0
    simp only [Nat.cast_zero, zero_div, zero_mul, add_zero]
    exact ⟨sorted_getD_mono l hs (Nat.zero_le i) hi,
      sorted_getD_mono l hs (by omega) (by omega)⟩

/-- Every quintile edge lies between the extremes of the sorted values. -/
theorem qEdge_bounds (l : List ℚ) (hs : List.Sorted (· ≤ ·) l) (hne : l ≠ [])
    (k : ℕ) (hk : k ≤ 5) :
    l.getD 0 0 ≤ qEdge l k ∧ qEdge l k ≤ l.getD (l.length - 1) 0 := by
  have hlen : 1 ≤ l.length := List.length_pos.mpr hne
  have hi : k * (l.length - 1) / 5 < l.length := by interval_cases k <;> omega
  have hrem : k * (l.length - 1) % 5 < 5 := Nat.mod_lt _ (by norm_num)
  have hedge : k * (l.length - 1) / 5 + 1 < l.length ∨ k * (l.length - 1) % 5 = 0 := by
    interval_cases k <;> omega
  have := interp_bounds l hs _ _ hi hrem hedge
  simpa [qEdge] using this

/-- The topmost quintile edge is the maximum of the sorted values. -/
theorem qEdge_five (l : List ℚ) (hne : l ≠ []) :
    qEdge l 5 = l.getD (l.length - 1) 0 := by
  have hlen : 1 ≤ l.length := List.length_pos.mpr hne
  have h1 : 5 * (l.length - 1) / 5 = l.length - 1 := by omega
  have h2 : 5 * (l.length - 1) % 5 = 0 := by omega
  simp [qEdge, h1, h2]

/-- A bin index is always one of the five tiers. -/
theorem binIdx_range (svs : List ℚ) (v : ℚ) : 1 ≤ binIdx svs v ∧ binIdx svs v ≤ 5 := by
  unfold binIdx
  split_ifs <;> omega

/-- Bin assignment is monotone in the binned value. -/
theorem binIdx_mono (svs : List ℚ) {v w : ℚ} (h : v ≤ w) :
    binIdx svs v ≤ binIdx svs w := by
  unfold binIdx
  split_ifs <;> first | omega | (exfalso; linarith)

/-- Position of the b-th tier label among the labels. -/
theorem tier_indexOf (b : ℕ) (h1 : 1 ≤ b) (h5 : b ≤ 5) :
    tierLabels.indexOf (tierLabels.getD (b - 1) "") = b - 1 := by
  interval_cases b <;> rfl

/-- The per-row broadcast State mean, read off at an index. -/
theorem transformMeans_getD (t : List MRow) (i : ℕ) (hi : i < t.length) :
    (transformMeans t).getD i none = groupMean t ((t.getD i mdefault).state) := by
  rw [transformMeans, List.getD_eq_getElem _ _ (by simpa using hi), List.getElem_map,
    List.getD_eq_getElem _ _ hi]

/-- Membership in the sorted present values is membership of the present
value in the series. -/
theorem mem_sortedVals (xs : List (Option ℚ)) (x : ℚ) :
    x ∈ sortedVals xs ↔ some x ∈ xs := by
  rw [sortedVals, (List.perm_insertionSort _ _).mem_iff, List.mem_filterMap]
  constructor
  · rintro ⟨o, ho, hid⟩
    cases o with
    | none => simp at hid
    | some y =>
      simp only [id_eq, Option.some.injEq] at hid
      rwa [hid] at ho
  · intro h
    exact ⟨some x, h, rfl⟩

/-- Distinct indices give distinct quintile edges when the dedup check of
the cut passed. -/
theorem nodup_qEdge_ne (svs : List ℚ) (hnd : (qEdges svs).Nodup) {a b : ℕ}
    (ha : a < 6) (hb : b < 6) (hab : a ≠ b) : qEdge svs a ≠ qEdge svs b := by
  intro h
  have hlen : (qEdges svs).length = 6 := by simp [qEdges]
  have h6a : a < (qEdges svs).length := by omega
  have h6b : b < (qEdges svs).length := by omega
  have hga : (qEdges svs)[a] = qEdge svs a := by simp [qEdges]
  have hgb : (qEdges svs)[b] = qEdge svs b := by simp [qEdges]
  exact hab ((List.Nodup.getElem_inj_iff hnd).mp (by rw [hga, hgb]; exact h))

/-- C7: when the quintile cut succeeds, the Priority_Rank column assigns
one of the five tier labels by the per-State mean of the primary
indicator: rows of the same State share one label, labels are monotone in
the State mean, a State with the minimal mean is labelled "Tier 1
(Urgent)" and one with the maximal mean "Tier 5 (Best)". -/
theorem c7_priority_rank (t : List MRow) (ls : List (Option String))
    (hok : rankCol t = Except.ok ls) :
    ls.length = t.length
    ∧ (∀ i j, i < t.length → j < t.length →
        (t.getD i mdefault).state = (t.getD j mdefault).state →
        ls.getD i none = ls.getD j none)
    ∧ (∀ i j mi mj, i < t.length → j < t.length →
        groupMean t ((t.getD i mdefault).state) = some mi →
        groupMean t ((t.getD j mdefault).state) = some mj →
        mi ≤ mj →
        ∃ li lj, ls.getD i none = some li ∧ ls.getD j none = some lj
          ∧ tierLabels.indexOf li ≤ tierLabels.indexOf lj)
    ∧ (∀ i mi, i < t.length →
        groupMean t ((t.getD i mdefault).state) = some mi →
        (∀ r ∈ t, ∀ mj, groupMean t r.state = some mj → mi ≤ mj) →
        ls.getD i none = some "Tier 1 (Urgent)")
    ∧ (∀ i mi, i < t.length →
        groupMean t ((t.getD i mdefault).state) = some mi →
        (∀ r ∈ t, ∀ mj, groupMean t r.state = some mj → mj ≤ mi) →
        ls.getD i none = some "Tier 5 (Best)") := by
  simp only [rankCol, qcut] at hok
  split_ifs at hok with hemp hnd
  · rw [Except.ok.injEq] at hok
    set svs := sortedVals (transformMeans t) with hsvs
    have hsorted : List.Sorted (· ≤ ·) svs := by
      rw [hsvs]
      exact List.sorted_insertionSort _ _
    have hne2 : svs ≠ [] := by
      intro h
      rw [h] at hemp
      simp at hemp
    have hmm : ∀ x : ℚ, x ∈ svs ↔ ∃ r ∈ t, groupMean t r.state = some x := by
      intro x
      rw [hsvs, mem_sortedVals, transformMeans, List.mem_map]
    have hgd : ∀ i, i < t.length → ls.getD i none
        = Option.map (fun v => tierLabels.getD (binIdx svs v - 1) "")
            (groupMean t ((t.getD i mdefault).state)) := by
      intro i hi
      rw [← hok, List.getD_eq_getElem _ _ (by simpa [transformMeans] using hi),
        List.getElem_map,
        ← List.getD_eq_getElem (transformMeans t) none (by simpa [transformMeans] using hi),
        transformMeans_getD t i hi]
    refine ⟨?_, ?_, ?_, ?_, ?_⟩
    · rw [← hok]
      simp [transformMeans]
    · intro i j hi hj hst
      rw [hgd i hi, hgd j hj, hst]
    · intro i j mi mj hi hj hmi hmj hle
      rw [hgd i hi, hmi, hgd j hj, hmj, Option.map_some']
      refine ⟨_, _, rfl, by rw [Option.map_some'], ?_⟩
      rw [tier_indexOf _ (binIdx_range svs mi).1 (binIdx_range svs mi).2,
        tier_indexOf _ (binIdx_range svs mj).1 (binIdx_range svs mj).2]
      have := binIdx_mono svs hle
      omega
    · intro i mi hi hmi hmin
      rw [hgd i hi, hmi, Option.map_some']
      have hmem : mi ∈ svs := (hmm mi).mpr ⟨t.getD i mdefault,
        by rw [List.getD_eq_getElem _ _ hi]; exact List.getElem_mem hi, hmi⟩
      have hminsvs : ∀ x ∈ svs, mi ≤ x := by
        intro x hx
        obtain ⟨r, hr, hgm⟩ := (hmm x).mp hx
        exact hmin r hr x hgm
      have h0mem : svs.getD 0 0 ∈ svs := getD_mem svs 0 (List.length_pos.mpr hne2)
      have hle1 : mi ≤ qEdge svs 1 :=
        le_trans (hminsvs _ h0mem) (qEdge_bounds svs hsorted hne2 1 (by omega)).1
      have hbin : binIdx svs mi = 1 := by
        unfold binIdx
        rw [if_pos hle1]
      rw [hbin]
      rfl
    · intro i mi hi hmi hmax
      rw [hgd i hi, hmi, Option.map_some']
      have hmem : mi ∈ svs := (hmm mi).mpr ⟨t.getD i mdefault,
        by rw [List.getD_eq_getElem _ _ hi]; exact List.getElem_mem hi, hmi⟩
      have hmaxsvs : ∀ x ∈ svs, x ≤ mi := by
        intro x hx
        obtain ⟨r, hr, hgm⟩ := (hmm x).mp hx
        exact hmax r hr x hgm
      have hlastmem : svs.getD (svs.length - 1) 0 ∈ svs := by
        refine getD_mem svs _ ?_
        have := List.length_pos.mpr hne2
        omega
      have hmilast : mi = svs.getD (svs.length - 1) 0 :=
        le_antisymm (sorted_le_last svs hsorted hmem) (hmaxsvs _ hlastmem)
      have h5 : qEdge svs 5 = svs.getD (svs.length - 1) 0 := qEdge_five svs hne2
      have hqlt : ∀ k, 1 ≤ k → k ≤ 4 → qEdge svs k < mi := by
        intro k hk1 hk4
        rw [hmilast, ← h5]
        exact lt_of_le_of_ne
          (by rw [h5]; exact (qEdge_bounds svs hsorted hne2 k (by omega)).2)
          (nodup_qEdge_ne svs hnd (by omega) (by omega) (by omega))
      have hbin : binIdx svs mi = 5 := by
        unfold binIdx
        rw [if_neg (not_le.mpr (hqlt 1 (by omega) (by omega))),
          if_neg (not_le.mpr (hqlt 2 (by omega) (by omega))),
          if_neg (not_le.mpr (hqlt 3 (by omega) (by omega))),
          if_neg (not_le.mpr (hqlt 4 (by omega) (by omega)))]
      rw [hbin]
      rfl

/-- The Priority_Rank column of `mergedQ`. -/
def lsQ : List (Option String) :=
  [some "Tier 1 (Urgent)", some "Tier 1 (Urgent)", some "Tier 2", some "Tier 2",
   some "Tier 4", some "Tier 5 (Best)", some "Tier 5 (Best)"]

/-- C7 witness: the rank properties evaluated on `mergedQ`, whose quintile
cut succeeds with the edges 10, 12, 20, 26, 38, 50. -/
theorem c7_priority_rank_witness :
    rankCol mergedQ = Except.ok lsQ
    ∧ (lsQ.length = mergedQ.length
      ∧ (∀ i j, i < mergedQ.length → j < mergedQ.length →
          (mergedQ.getD i mdefault).state = (mergedQ.getD j mdefault).state →
          lsQ.getD i none = lsQ.getD j none)
      ∧ (∀ i j mi mj, i < mergedQ.length → j < mergedQ.length →
          groupMean mergedQ ((mergedQ.getD i mdefault).state) = some mi →
          groupMean mergedQ ((mergedQ.getD j mdefault).state) = some mj →
          mi ≤ mj →
          ∃ li lj, lsQ.getD i none = some li ∧ lsQ.getD j none = some lj
            ∧ tierLabels.indexOf li ≤ tierLabels.indexOf lj)
      ∧ (∀ i mi, i < mergedQ.length →
          groupMean mergedQ ((mergedQ.getD i mdefault).state) = some mi →
          (∀ r ∈ mergedQ, ∀ mj, groupMean mergedQ r.state = some mj → mi ≤ mj) →
          lsQ.getD i none = some "Tier 1 (Urgent)")
      ∧ (∀ i mi, i < mergedQ.length →
          groupMean mergedQ ((mergedQ.getD i mdefault).state) = some mi →
          (∀ r ∈ mergedQ, ∀ mj, groupMean mergedQ r.state = some mj → mj ≤ mi) →
          lsQ.getD i none = some "Tier 5 (Best)")) := by
  have h : rankCol mergedQ = Except.ok lsQ := by
    norm_num +decide [rankCol, qcut, transformMeans, groupMean, groupRows, meanOpt,
      sortedVals, List.insertionSort, List.orderedInsert, qEdges, qEdge, binIdx,
      tierLabels, mergedQ, lsQ, List.filterMap_cons, List.range_succ]
  exact ⟨h, c7_priority_rank mergedQ lsQ h⟩
